/-
Verification of `analyze_landmarks.py` (2022Fall vpn_validator).

This file shallowly embeds the functions of the program that the design
documentation talks about — `reconcile_landmarks` (and its inner helper
`not_same_location`), `load_maps`, `analyze_landmark`, `rewrite_results`
and `atomic_rewrite` — and proves or refutes the documented properties.

Modelling conventions:
* Python floats are modelled by exact rationals (`ℚ`).  Every concrete
  value appearing in a theorem below (0, 0.05, 0.2, 10, 100000, ...) is
  exactly representable in binary64, and the float operations the code
  performs on them at those inputs are exact, so the idealisation is
  faithful at every input we evaluate.
* The transcendental functions `math.sin`, `math.cos`, `math.asin`,
  `math.sqrt` and the constant `math.pi` are kept abstract: they are
  packaged in a `MathPrims` structure and theorems assume only the
  identities (`sin 0 = 0`, `sqrt 0 = 0`, `asin 0 = 0`) that hold both for
  the real functions and for their IEEE-754 implementations (all three
  are exact at 0).
* Python dicts are modelled by association lists (insertion-ordered,
  unique keys), matching dict iteration-order semantics.
* IP addresses (dict keys of the landmark tables) are modelled by an
  arbitrary decidable type; we use `String`.
-/
import Mathlib

namespace AnalyzeLandmarks

/-- Abstract interface to the `math` module: the embedding never needs to
evaluate the transcendental functions, only to name them. -/
structure MathPrims where
  sin : ℚ → ℚ
  cos : ℚ → ℚ
  asin : ℚ → ℚ
  sqrt : ℚ → ℚ
  pi : ℚ

/-- A landmark record (`Landmark = Dict[str, Any]` in the source).  We keep
the fields `reconcile_landmarks` reads: the coordinates, and the per-country
distance entries already present in the record (the `iso`-keyed columns of
an old result row).  Arbitrary passthrough metadata is irrelevant to every
claim and is omitted. -/
structure Landmark where
  longitude : ℚ
  latitude : ℚ
  dists : List (String × ℚ)
deriving DecidableEq

/-- The source's `EMPTY_LM = OrderedDict()`: a record with no keys.  The
coordinate fields of this value are never read by the embedded code
(`not_same_location` only reads its *first* argument — that is the bug of
claim C1), so the placeholder zeroes are unobservable; `dists := []`
models the absence of every per-country key. -/
def EMPTY_LM : Landmark := ⟨0, 0, []⟩

/-- Embedding of the inner function `not_same_location` of
`reconcile_landmarks` (analyze_landmarks.py lines 546-568), kept exactly as
written in the source.  Note the source bug: `o_lon` and `o_lat` are read
from `lm` (the new record), not from `old_lm` — `old_lm` is never used. -/
def not_same_location (M : MathPrims) (lm old_lm : Landmark) : Bool :=
  let TO_RAD := M.pi / 180
  let R1 : ℚ := 6371.0088
  let n_lon := lm.longitude * TO_RAD
  let n_lat := lm.latitude * TO_RAD
  -- source lines 556-557: `o_lon = lm["longitude"] * TO_RAD` and
  -- `o_lat = lm["latitude"] * TO_RAD` — `lm`, not `old_lm`.
  let o_lon := lm.longitude * TO_RAD
  let o_lat := lm.latitude * TO_RAD
  let slat := M.sin ((n_lat - o_lat) / 2)
  let slon := M.sin ((n_lon - o_lon) / 2)
  let d := 2 * R1 * M.asin (M.sqrt (slat * slat + M.cos o_lat * M.cos n_lat * slon * slon))
  decide (d > 10)

/-- Because both coordinate pairs are read from the same record, the
haversine argument is identically zero and the function always answers
`false` (never "moved"), whatever the coordinates are. -/
lemma not_same_location_always_false (M : MathPrims)
    (hsin : M.sin 0 = 0) (hsqrt : M.sqrt 0 = 0) (hasin : M.asin 0 = 0)
    (lm old_lm : Landmark) :
    not_same_location M lm old_lm = false := by
  unfold not_same_location
  simp only [sub_self, zero_div, hsin, mul_zero, zero_mul, add_zero, hsqrt, hasin,
    decide_eq_false_iff_not, not_lt]
  norm_num

/-- An output record produced by `reconcile_landmarks`: the new landmark
with one (country-code, distance-or-`None`) entry added per required code
(source lines 577-579: `lm[iso] = old_lm.get(iso)`). -/
structure OutRecord where
  addr : String
  longitude : ℚ
  latitude : ℚ
  dists : List (String × Option ℚ)
deriving DecidableEq

/-- The per-landmark body of the `reconcile_landmarks` loop (source lines
571-579): fetch the old record (empty if absent), drop it if
`not_same_location` fires, then build one entry per required country code
from the old record's value for that code (`None` when absent). -/
def reconcileRecord (M : MathPrims) (old_landmarks : List (String × Landmark))
    (ccs : List String) (addr : String) (lm : Landmark) : OutRecord :=
  let old_lm := (old_landmarks.lookup addr).getD EMPTY_LM
  let old_lm := if not_same_location M lm old_lm then EMPTY_LM else old_lm
  ⟨addr, lm.longitude, lm.latitude, ccs.map fun iso => (iso, old_lm.dists.lookup iso)⟩

/-- Source lines 576-581: the record goes to `complete` unless some entry is
`None` (`dest_list` flips to `incomplete` on the first `None`). -/
def recordComplete (r : OutRecord) : Bool :=
  r.dists.all fun p => p.2.isSome

/-- Embedding of `reconcile_landmarks` (source lines 509-585).  The loop
appends each new record to exactly one of the two lists; the recursion
produces the lists in the same relative order. -/
def reconcile_landmarks (M : MathPrims) (old_landmarks : List (String × Landmark))
    (new_landmarks : List (String × Landmark)) (ccs : List String) :
    List OutRecord × List OutRecord :=
  match new_landmarks with
  | [] => ([], [])
  | (addr, lm) :: rest =>
    let r := reconcileRecord M old_landmarks ccs addr lm
    let ci := reconcile_landmarks M old_landmarks rest ccs
    if recordComplete r then (r :: ci.1, ci.2) else (ci.1, r :: ci.2)

lemma reconcile_cons_complete (M : MathPrims) (old_landmarks : List (String × Landmark))
    (ccs : List String) (addr : String) (lm : Landmark)
    (tl : List (String × Landmark))
    (h : recordComplete (reconcileRecord M old_landmarks ccs addr lm) = true) :
    reconcile_landmarks M old_landmarks ((addr, lm) :: tl) ccs
      = (reconcileRecord M old_landmarks ccs addr lm
          :: (reconcile_landmarks M old_landmarks tl ccs).1,
         (reconcile_landmarks M old_landmarks tl ccs).2) := by
  simp only [reconcile_landmarks]
  rw [if_pos h]

lemma reconcile_cons_incomplete (M : MathPrims) (old_landmarks : List (String × Landmark))
    (ccs : List String) (addr : String) (lm : Landmark)
    (tl : List (String × Landmark))
    (h : recordComplete (reconcileRecord M old_landmarks ccs addr lm) = false) :
    reconcile_landmarks M old_landmarks ((addr, lm) :: tl) ccs
      = ((reconcile_landmarks M old_landmarks tl ccs).1,
         reconcileRecord M old_landmarks ccs addr lm
          :: (reconcile_landmarks M old_landmarks tl ccs).2) := by
  simp only [reconcile_landmarks]
  rw [if_neg (by simp [h])]

lemma reconcileRecord_addr (M : MathPrims) (old_landmarks : List (String × Landmark))
    (ccs : List String) (addr : String) (lm : Landmark) :
    (reconcileRecord M old_landmarks ccs addr lm).addr = addr := rfl

lemma reconcile_length (M : MathPrims) (old_landmarks : List (String × Landmark))
    (ccs : List String) :
    ∀ new_landmarks : List (String × Landmark),
      (reconcile_landmarks M old_landmarks new_landmarks ccs).1.length
        + (reconcile_landmarks M old_landmarks new_landmarks ccs).2.length
        = new_landmarks.length := by
  intro new_landmarks
  induction new_landmarks with
  | nil => simp [reconcile_landmarks]
  | cons hd tl ih =>
    obtain ⟨addr, lm⟩ := hd
    by_cases h : recordComplete (reconcileRecord M old_landmarks ccs addr lm) = true
    · rw [reconcile_cons_complete M old_landmarks ccs addr lm tl h]
      simp only [List.length_cons, List.length]
      omega
    · rw [reconcile_cons_incomplete M old_landmarks ccs addr lm tl
        (Bool.eq_false_iff.mpr h)]
      simp only [List.length_cons, List.length]
      omega

lemma reconcile_perm (M : MathPrims) (old_landmarks : List (String × Landmark))
    (ccs : List String) :
    ∀ new_landmarks : List (String × Landmark),
      ((reconcile_landmarks M old_landmarks new_landmarks ccs).1.map OutRecord.addr
        ++ (reconcile_landmarks M old_landmarks new_landmarks ccs).2.map OutRecord.addr).Perm
        (new_landmarks.map Prod.fst) := by
  intro new_landmarks
  induction new_landmarks with
  | nil => simp [reconcile_landmarks]
  | cons hd tl ih =>
    obtain ⟨addr, lm⟩ := hd
    by_cases h : recordComplete (reconcileRecord M old_landmarks ccs addr lm) = true
    · rw [reconcile_cons_complete M old_landmarks ccs addr lm tl h]
      simpa [reconcileRecord_addr] using ih.cons addr
    · rw [reconcile_cons_incomplete M old_landmarks ccs addr lm tl
        (Bool.eq_false_iff.mpr h)]
      simp only [List.map_cons, List.map, reconcileRecord_addr]
      exact List.Perm.trans List.perm_middle (ih.cons addr)

lemma reconcile_mem (M : MathPrims) (old_landmarks : List (String × Landmark))
    (ccs : List String) :
    ∀ (new_landmarks : List (String × Landmark)) (r : OutRecord),
      (r ∈ (reconcile_landmarks M old_landmarks new_landmarks ccs).1 →
        (∃ p ∈ new_landmarks, r = reconcileRecord M old_landmarks ccs p.1 p.2)
          ∧ recordComplete r = true)
      ∧ (r ∈ (reconcile_landmarks M old_landmarks new_landmarks ccs).2 →
        (∃ p ∈ new_landmarks, r = reconcileRecord M old_landmarks ccs p.1 p.2)
          ∧ recordComplete r = false) := by
  intro new_landmarks
  induction new_landmarks with
  | nil => simp [reconcile_landmarks]
  | cons hd tl ih =>
    obtain ⟨addr, lm⟩ := hd
    intro r
    by_cases h : recordComplete (reconcileRecord M old_landmarks ccs addr lm) = true
    · rw [reconcile_cons_complete M old_landmarks ccs addr lm tl h]
      constructor
      · intro hr
        rcases List.mem_cons.mp hr with rfl | hr
        · exact ⟨⟨(addr, lm), by simp⟩, h⟩
        · obtain ⟨⟨p, hp, hpr⟩, hc⟩ := (ih r).1 hr
          exact ⟨⟨p, by simp [hp], hpr⟩, hc⟩
      · intro hr
        obtain ⟨⟨p, hp, hpr⟩, hc⟩ := (ih r).2 hr
        exact ⟨⟨p, by simp [hp], hpr⟩, hc⟩
    · rw [reconcile_cons_incomplete M old_landmarks ccs addr lm tl
        (Bool.eq_false_iff.mpr h)]
      constructor
      · intro hr
        obtain ⟨⟨p, hp, hpr⟩, hc⟩ := (ih r).1 hr
        exact ⟨⟨p, by simp [hp], hpr⟩, hc⟩
      · intro hr
        rcases List.mem_cons.mp hr with rfl | hr
        · exact ⟨⟨(addr, lm), by simp⟩, Bool.eq_false_iff.mpr h⟩
        · obtain ⟨⟨p, hp, hpr⟩, hc⟩ := (ih r).2 hr
          exact ⟨⟨p, by simp [hp], hpr⟩, hc⟩

lemma reconcileRecord_keys (M : MathPrims) (old_landmarks : List (String × Landmark))
    (ccs : List String) (addr : String) (lm : Landmark) :
    (reconcileRecord M old_landmarks ccs addr lm).dists.map Prod.fst = ccs := by
  simp [reconcileRecord, Function.comp_def]

/-- Claim C1 (refuted by the code — the documented move-detection rule is
the intent, the code a slip): `not_same_location` reads both coordinate
pairs from the NEW record, so the computed distance is always 0 and "moved"
is never detected.  In particular a new landmark at (lat 0, lon 0) with a
prior record at (lat 0, lon 0.2) — about 22 km away, which the rule says
must be treated as moved — is treated as unmoved, and all of the prior
per-country distances are carried forward.  The hypotheses hold both of
the real functions and of their IEEE-754 implementations. -/
theorem c1_move_never_detected (M : MathPrims)
    (hsin : M.sin 0 = 0) (hsqrt : M.sqrt 0 = 0) (hasin : M.asin 0 = 0) :
    not_same_location M ⟨0, 0, []⟩ ⟨0.2, 0, [("USA", 1370)]⟩ = false
    ∧ reconcile_landmarks M [("198.51.100.7", ⟨0.2, 0, [("USA", 1370)]⟩)]
        [("198.51.100.7", ⟨0, 0, []⟩)] ["USA"]
        = ([⟨"198.51.100.7", 0, 0, [("USA", some 1370)]⟩], [])
    ∧ ∀ lm old_lm, not_same_location M lm old_lm = false := by
  have hns := not_same_location_always_false M hsin hsqrt hasin
  refine ⟨hns _ _, ?_, hns⟩
  simp [reconcile_landmarks, reconcileRecord, recordComplete, hns, List.lookup]

/-- Closed witness for `c1_move_never_detected` at a concrete instance of
the math primitives. -/
theorem c1_move_never_detected_witness :
    not_same_location ⟨fun _ => 0, fun _ => 1, fun _ => 0, fun _ => 0, 0⟩
      ⟨0, 0, []⟩ ⟨0.2, 0, [("USA", 1370)]⟩ = false :=
  (c1_move_never_detected ⟨fun _ => 0, fun _ => 1, fun _ => 0, fun _ => 0, 0⟩
    rfl rfl rfl).1

/-- Claim C3: `reconcile_landmarks` returns two lists whose lengths sum to
the length of the new set, whose addresses are a permutation of the new
addresses (hence, when the new addresses are distinct, each appears in
exactly one of the two lists), every record carries one entry per country
code of the table, records with no unknown entry go to `complete`, and
records in `incomplete` have at least one unknown entry. -/
theorem c3_reconcile_partition (M : MathPrims)
    (old_landmarks new_landmarks : List (String × Landmark)) (ccs : List String) :
    (reconcile_landmarks M old_landmarks new_landmarks ccs).1.length
        + (reconcile_landmarks M old_landmarks new_landmarks ccs).2.length
        = new_landmarks.length
    ∧ ((reconcile_landmarks M old_landmarks new_landmarks ccs).1.map OutRecord.addr
        ++ (reconcile_landmarks M old_landmarks new_landmarks ccs).2.map OutRecord.addr).Perm
        (new_landmarks.map Prod.fst)
    ∧ (∀ r : OutRecord,
        (r ∈ (reconcile_landmarks M old_landmarks new_landmarks ccs).1
          ∨ r ∈ (reconcile_landmarks M old_landmarks new_landmarks ccs).2) →
        r.dists.map Prod.fst = ccs)
    ∧ (∀ r ∈ (reconcile_landmarks M old_landmarks new_landmarks ccs).1,
        ∀ p ∈ r.dists, p.2.isSome = true)
    ∧ (∀ r ∈ (reconcile_landmarks M old_landmarks new_landmarks ccs).2,
        ∃ p ∈ r.dists, p.2 = none)
    ∧ ((new_landmarks.map Prod.fst).Nodup →
        ∀ a ∈ new_landmarks.map Prod.fst,
          ((reconcile_landmarks M old_landmarks new_landmarks ccs).1.map OutRecord.addr).count a
            + ((reconcile_landmarks M old_landmarks new_landmarks ccs).2.map OutRecord.addr).count a
          = 1) := by
  refine ⟨reconcile_length M old_landmarks ccs new_landmarks,
    reconcile_perm M old_landmarks ccs new_landmarks, ?_, ?_, ?_, ?_⟩
  · intro r hr
    have hm := reconcile_mem M old_landmarks ccs new_landmarks r
    rcases hr with hr | hr
    · obtain ⟨⟨p, _, hpr⟩, _⟩ := hm.1 hr
      rw [hpr]
      exact reconcileRecord_keys M old_landmarks ccs p.1 p.2
    · obtain ⟨⟨p, _, hpr⟩, _⟩ := hm.2 hr
      rw [hpr]
      exact reconcileRecord_keys M old_landmarks ccs p.1 p.2
  · intro r hr p hp
    have hc := ((reconcile_mem M old_landmarks ccs new_landmarks r).1 hr).2
    simp only [recordComplete, List.all_eq_true] at hc
    exact hc p hp
  · intro r hr
    have hc := ((reconcile_mem M old_landmarks ccs new_landmarks r).2 hr).2
    simp only [recordComplete] at hc
    have hne := Bool.eq_false_iff.mp hc
    simp only [ne_eq, List.all_eq_true] at hne
    push_neg at hne
    obtain ⟨p, hp, hps⟩ := hne
    exact ⟨p, hp, Option.not_isSome_iff_eq_none.mp (by simpa using hps)⟩
  · intro hnd a ha
    have hperm := reconcile_perm M old_landmarks ccs new_landmarks
    have := hperm.count_eq a
    rw [List.count_append] at this
    rw [this]
    exact List.count_eq_one_of_mem hnd ha

/-- Closed witness for `c3_reconcile_partition` at a concrete input. -/
theorem c3_reconcile_partition_witness :
    (reconcile_landmarks ⟨fun _ => 0, fun _ => 1, fun _ => 0, fun _ => 0, 0⟩
        [("10.0.0.1", ⟨1, 2, [("USA", 30)]⟩)]
        [("10.0.0.1", ⟨1, 2, []⟩), ("10.0.0.2", ⟨3, 4, []⟩)] ["FRA", "USA"]).1.length
      + (reconcile_landmarks ⟨fun _ => 0, fun _ => 1, fun _ => 0, fun _ => 0, 0⟩
        [("10.0.0.1", ⟨1, 2, [("USA", 30)]⟩)]
        [("10.0.0.1", ⟨1, 2, []⟩), ("10.0.0.2", ⟨3, 4, []⟩)] ["FRA", "USA"]).2.length = 2
    ∧ ((reconcile_landmarks ⟨fun _ => 0, fun _ => 1, fun _ => 0, fun _ => 0, 0⟩
        [("10.0.0.1", ⟨1, 2, [("USA", 30)]⟩)]
        [("10.0.0.1", ⟨1, 2, []⟩), ("10.0.0.2", ⟨3, 4, []⟩)] ["FRA", "USA"]).1.map
          OutRecord.addr).count "10.0.0.1"
      + ((reconcile_landmarks ⟨fun _ => 0, fun _ => 1, fun _ => 0, fun _ => 0, 0⟩
        [("10.0.0.1", ⟨1, 2, [("USA", 30)]⟩)]
        [("10.0.0.1", ⟨1, 2, []⟩), ("10.0.0.2", ⟨3, 4, []⟩)] ["FRA", "USA"]).2.map
          OutRecord.addr).count "10.0.0.1" = 1 := by
  refine ⟨(c3_reconcile_partition _ _ _ _).1, ?_⟩
  exact (c3_reconcile_partition ⟨fun _ => 0, fun _ => 1, fun _ => 0, fun _ => 0, 0⟩
    [("10.0.0.1", ⟨1, 2, [("USA", 30)]⟩)]
    [("10.0.0.1", ⟨1, 2, []⟩), ("10.0.0.2", ⟨3, 4, []⟩)] ["FRA", "USA"]).2.2.2.2.2
    (by decide) "10.0.0.1" (by decide)

/-- Python 3 `round` restricted to one argument: round to the nearest
integer, ties to the nearest even integer (banker's rounding). -/
def pyRound (x : ℚ) : ℤ :=
  if x - ⌊x⌋ < 1 / 2 then ⌊x⌋
  else if 1 / 2 < x - ⌊x⌋ then ⌊x⌋ + 1
  else if ⌊x⌋ % 2 = 0 then ⌊x⌋ else ⌊x⌋ + 1

lemma pyRound_zero : pyRound 0 = 0 := by
  norm_num [pyRound]

lemma pyRound_near (x : ℚ) : |(pyRound x : ℚ) - x| ≤ 1 / 2 := by
  have h0 : (⌊x⌋ : ℚ) ≤ x := Int.floor_le x
  have h1 : x < (⌊x⌋ : ℚ) + 1 := Int.lt_floor_add_one x
  unfold pyRound
  split_ifs with ha hb hc
  · rw [abs_le]
    constructor <;> push_cast <;> linarith
  · rw [abs_le]
    constructor <;> push_cast <;> linarith
  · rw [abs_le]
    constructor <;> push_cast <;> linarith [le_of_not_lt ha, le_of_not_lt hb]
  · rw [abs_le]
    constructor <;> push_cast <;> linarith [le_of_not_lt ha, le_of_not_lt hb]

lemma pyRound_nonneg (x : ℚ) (hx : 0 ≤ x) : 0 ≤ pyRound x := by
  have h0 : 0 ≤ ⌊x⌋ := Int.floor_nonneg.mpr hx
  unfold pyRound
  split_ifs <;> omega

lemma pyRound_one_le (x : ℚ) (hx : 1 / 2 < x) : 1 ≤ pyRound x := by
  have hn := abs_le.mp (pyRound_near x)
  have h3 : (0 : ℚ) < (pyRound x : ℚ) := by linarith
  have h4 : (0 : ℤ) < pyRound x := by exact_mod_cast h3
  omega

/-- Embedding of the distance post-processing of `analyze_landmark`
(source lines 730-744): round the planar distance to the nearest multiple
of the resolution, then negate it when the projected landmark point
intersects the projected country geometry.  (The source's `idist =
int(dist); if idist == dist: dist = idist` step at lines 735-737 changes
only the runtime type of a whole number, never its value, and is
therefore omitted.) -/
def storeDist (resolution dist : ℚ) (intersects : Bool) : ℚ :=
  let d := (pyRound (dist / resolution) : ℚ) * resolution
  if intersects then -d else d

/-- Point update of a landmark's per-country map (`landmark[iso] = dist`,
source line 744). -/
def updateKey (lm : String → Option ℚ) (iso : String) (v : Option ℚ) :
    String → Option ℚ :=
  fun k => if k = iso then v else lm k

/-- One iteration of the per-country loop of `analyze_landmark` (source
lines 705-744): skip entries already known (line 707); otherwise consult
`compute` — `none` models the soft-skip of lines 711-728 (projected
geometry invalid and unrepairable: the entry is left unknown), `some d`
the successful distance computation. -/
def analyze_step (compute : String → Option ℚ) (lm : String → Option ℚ)
    (iso : String) : String → Option ℚ :=
  match lm iso with
  | some _ => lm
  | none =>
    match compute iso with
    | some d => updateKey lm iso (some d)
    | none => lm

/-- The per-country distance computation of `analyze_landmark` for one
fixed landmark and one fixed geometry snapshot.  `geom iso = none` models
a projected country geometry that stayed invalid after the one `buffer(0)`
repair (lines 711-728); `geom iso = some (d, inter)` models a usable
projected geometry whose planar distance to the projected landmark point
`Point(0, 0)` is `d`, with `inter` the result of
`lm_ploc.intersects(aeqd_mapg)` (line 741).  Both are functions of the
landmark's coordinates and the shared immutable snapshot
`(maps, map_crs, resolution)` only, hence fixed across re-invocations. -/
def mkCompute (resolution : ℚ) (geom : String → Option (ℚ × Bool)) :
    String → Option ℚ :=
  fun iso => (geom iso).map fun di => storeDist resolution di.1 di.2

/-- Embedding of `analyze_landmark` (source lines 664-746): fold the
per-country step over the country codes of the map snapshot, in map
order. -/
def analyze_landmark (maps : List String) (resolution : ℚ)
    (geom : String → Option (ℚ × Bool)) (lm : String → Option ℚ) :
    String → Option ℚ :=
  maps.foldl (analyze_step (mkCompute resolution geom)) lm

/-- Left-biased choice on optional values: the value of an entry after the
loop visits it. -/
def optOr : Option ℚ → Option ℚ → Option ℚ
  | some v, _ => some v
  | none, b => b

lemma optOr_absorb (a b : Option ℚ) : optOr (optOr a b) b = optOr a b := by
  cases a <;> cases b <;> rfl

lemma analyze_step_self (compute : String → Option ℚ) (lm : String → Option ℚ)
    (iso : String) :
    analyze_step compute lm iso iso = optOr (lm iso) (compute iso) := by
  cases hlm : lm iso with
  | some v => simp [analyze_step, hlm, optOr]
  | none =>
    cases hc : compute iso with
    | some d => simp [analyze_step, updateKey, hlm, hc, optOr]
    | none => simp [analyze_step, updateKey, hlm, hc, optOr]

lemma analyze_step_other (compute : String → Option ℚ) (lm : String → Option ℚ)
    (iso k : String) (hk : k ≠ iso) :
    analyze_step compute lm iso k = lm k := by
  cases hlm : lm iso with
  | some v => simp [analyze_step, hlm]
  | none =>
    cases hc : compute iso with
    | some d => simp [analyze_step, updateKey, hlm, hc, hk]
    | none => simp [analyze_step, hlm, hc]

lemma foldl_analyze_char (compute : String → Option ℚ) :
    ∀ (maps : List String) (lm : String → Option ℚ) (k : String),
      List.foldl (analyze_step compute) lm maps k
        = if k ∈ maps then optOr (lm k) (compute k) else lm k := by
  intro maps
  induction maps with
  | nil => intro lm k; simp
  | cons iso rest ih =>
    intro lm k
    simp only [List.foldl_cons]
    rw [ih]
    by_cases hk : k = iso
    · subst hk
      rw [analyze_step_self]
      by_cases hr : k ∈ rest
      · simp [hr, optOr_absorb]
      · simp [hr]
    · rw [analyze_step_other compute lm iso k hk]
      simp [List.mem_cons, hk]

/-- Claim C4: `analyze_landmark` is idempotent for a fixed landmark and a
fixed geometry snapshot — a second run produces the identical record, and
every entry already known before a run is left untouched by it. -/
theorem c4_analyze_idempotent (maps : List String) (resolution : ℚ)
    (geom : String → Option (ℚ × Bool)) (lm : String → Option ℚ) :
    (∀ k, analyze_landmark maps resolution geom
        (analyze_landmark maps resolution geom lm) k
        = analyze_landmark maps resolution geom lm k)
    ∧ (∀ iso v, lm iso = some v →
        analyze_landmark maps resolution geom lm iso = some v) := by
  constructor
  · intro k
    unfold analyze_landmark
    rw [foldl_analyze_char, foldl_analyze_char]
    by_cases hk : k ∈ maps
    · simp [hk, optOr_absorb]
    · simp [hk]
  · intro iso v hv
    unfold analyze_landmark
    rw [foldl_analyze_char]
    by_cases hk : iso ∈ maps <;> simp [hk, hv, optOr]

/-- Closed witness for `c4_analyze_idempotent`: a concrete snapshot with
one resolvable country, one unresolvable country and one already-known
entry. -/
theorem c4_analyze_idempotent_witness :
    (analyze_landmark ["DEU", "FRA", "USA"] 10
        (fun iso => if iso = "FRA" then some (100000, false) else none)
        (analyze_landmark ["DEU", "FRA", "USA"] 10
          (fun iso => if iso = "FRA" then some (100000, false) else none)
          (fun k => if k = "USA" then some 30 else none)) "FRA"
      = analyze_landmark ["DEU", "FRA", "USA"] 10
          (fun iso => if iso = "FRA" then some (100000, false) else none)
          (fun k => if k = "USA" then some 30 else none) "FRA")
    ∧ analyze_landmark ["DEU", "FRA", "USA"] 10
        (fun iso => if iso = "FRA" then some (100000, false) else none)
        (fun k => if k = "USA" then some 30 else none) "USA" = some 30 :=
  ⟨(c4_analyze_idempotent ["DEU", "FRA", "USA"] 10
      (fun iso => if iso = "FRA" then some (100000, false) else none)
      (fun k => if k = "USA" then some 30 else none)).1 "FRA",
   (c4_analyze_idempotent ["DEU", "FRA", "USA"] 10
      (fun iso => if iso = "FRA" then some (100000, false) else none)
      (fun k => if k = "USA" then some 30 else none)).2 "USA" 30 rfl⟩

/-- Claim C5: the stored value is the planar distance rounded to the
nearest multiple of the resolution, and its sign follows the documented
convention.  The code negates on `intersects` while the documentation says
"within"; the two differ only for a point on the boundary, where the
planar distance is 0 and both encodings store 0, so the stored values
coincide (first conjunct).  The hypotheses `hwi` (within implies
intersects) and `hint` (a point intersecting a closed planar set is at
distance 0 from it) are facts of planar geometry supplied by the geometry
library.  A landmark strictly inside a country is within, hence the stored
value is non-positive (fourth conjunct); a landmark 100 km (100000 m)
outside a country at resolution 10 stores the positive multiple of 10
100000 (last conjunct, an instance of conjuncts two and five). -/
theorem c5_sign_convention (resolution dist : ℚ) (within intersects : Bool)
    (hres : 0 < resolution) (hdist : 0 ≤ dist)
    (hwi : within = true → intersects = true)
    (hint : intersects = true → dist = 0) :
    storeDist resolution dist intersects
      = (if within then -((pyRound (dist / resolution) : ℚ) * resolution)
          else (pyRound (dist / resolution) : ℚ) * resolution)
    ∧ (∃ k : ℤ, storeDist resolution dist intersects = k * resolution)
    ∧ |(pyRound (dist / resolution) : ℚ) * resolution - dist| ≤ resolution / 2
    ∧ (within = true → storeDist resolution dist intersects ≤ 0)
    ∧ (intersects = false → resolution / 2 < dist →
        0 < storeDist resolution dist intersects)
    ∧ storeDist 10 100000 false = 100000 := by
  have hne : resolution ≠ 0 := ne_of_gt hres
  refine ⟨?_, ?_, ?_, ?_, ?_, ?_⟩
  · cases hw : within
    · cases hi : intersects
      · simp [storeDist, hi]
      · have h0 : dist = 0 := hint hi
        subst h0
        simp [storeDist, hi, pyRound_zero]
    · have hi := hwi hw
      simp [storeDist, hi]
  · cases hi : intersects
    · exact ⟨pyRound (dist / resolution), by simp [storeDist, hi]⟩
    · refine ⟨-(pyRound (dist / resolution)), ?_⟩
      simp only [storeDist, hi, if_true]
      push_cast
      ring
  · have hn := pyRound_near (dist / resolution)
    have hdd : dist / resolution * resolution = dist := div_mul_cancel₀ dist hne
    calc |(pyRound (dist / resolution) : ℚ) * resolution - dist|
        = |((pyRound (dist / resolution) : ℚ) - dist / resolution) * resolution| := by
          rw [sub_mul, hdd]
      _ = |(pyRound (dist / resolution) : ℚ) - dist / resolution| * resolution := by
          rw [abs_mul, abs_of_pos hres]
      _ ≤ 1 / 2 * resolution := by
          exact mul_le_mul_of_nonneg_right hn (le_of_lt hres)
      _ = resolution / 2 := by ring
  · intro hw
    have hi := hwi hw
    have h0 : dist = 0 := hint hi
    subst h0
    simp [storeDist, hi, pyRound_zero]
  · intro hi hbig
    have hq : 1 / 2 < dist / resolution := by
      rw [lt_div_iff hres]
      linarith
    have h1 : (1 : ℚ) ≤ (pyRound (dist / resolution) : ℚ) := by
      exact_mod_cast pyRound_one_le _ hq
    simp only [storeDist, hi, if_false, Bool.false_eq_true]
    nlinarith
  · norm_num [storeDist, pyRound]

/-- Closed witness for `c5_sign_convention`: resolution 10; a landmark on
a country's land (within and intersecting, planar distance 0) stores a
non-positive value, and one 100 km outside stores 100000. -/
theorem c5_sign_convention_witness :
    storeDist 10 0 true ≤ 0 ∧ storeDist 10 100000 false = 100000 :=
  ⟨(c5_sign_convention 10 0 true true (by norm_num) (by norm_num)
      (fun h => h) (fun _ => rfl)).2.2.2.1 rfl,
   (c5_sign_convention 10 0 true true (by norm_num) (by norm_num)
      (fun h => h) (fun _ => rfl)).2.2.2.2.2⟩

/-- Claim C10: whenever the projected landmark point lies on or inside the
(valid) projected country geometry, the planar distance is 0 — the
hypothesis `hint` is that planar-geometry fact — so the stored value is
exactly 0 after rounding and negation; and no input ever stores a strictly
negative value: the "inside" branch of the sign convention never encodes a
nonzero depth. -/
theorem c10_inside_stores_zero (resolution dist : ℚ) (intersects : Bool)
    (hres : 0 < resolution) (hdist : 0 ≤ dist)
    (hint : intersects = true → dist = 0) :
    (intersects = true → storeDist resolution dist intersects = 0)
    ∧ 0 ≤ storeDist resolution dist intersects := by
  constructor
  · intro hi
    have h0 : dist = 0 := hint hi
    subst h0
    simp [storeDist, hi, pyRound_zero]
  · cases hi : intersects
    · have hq : 0 ≤ dist / resolution := div_nonneg hdist (le_of_lt hres)
      have h1 : (0 : ℚ) ≤ (pyRound (dist / resolution) : ℚ) := by
        exact_mod_cast pyRound_nonneg _ hq
      simp only [storeDist, hi, if_false, Bool.false_eq_true]
      positivity
    · have h0 : dist = 0 := hint hi
      subst h0
      simp [storeDist, hi, pyRound_zero]

/-- Closed witness for `c10_inside_stores_zero` at resolution 10 and an
intersecting point. -/
theorem c10_inside_stores_zero_witness :
    storeDist 10 0 true = 0 ∧ 0 ≤ storeDist 10 0 true :=
  ⟨(c10_inside_stores_zero 10 0 true (by norm_num) (by norm_num)
      (fun _ => rfl)).1 rfl,
   (c10_inside_stores_zero 10 0 true (by norm_num) (by norm_num)
      (fun _ => rfl)).2⟩

/-- A record as seen by `rewrite_results`: its `addr` value (the sort key,
line 623) and its dict key list (unique, insertion-ordered).  The other
values play no role in the validation or in the column layout. -/
structure RwRecord where
  addr : String
  keys : List String
deriving DecidableEq

/-- Equality of `frozenset`s of keys (source lines 606, 612-613). -/
def setEqB (a b : List String) : Bool :=
  a.all (fun k => decide (k ∈ b)) && b.all (fun k => decide (k ∈ a))

lemma setEqB_iff (a b : List String) :
    setEqB a b = true ↔ ∀ k, k ∈ a ↔ k ∈ b := by
  simp only [setEqB, Bool.and_eq_true, List.all_eq_true, decide_eq_true_eq]
  constructor
  · rintro ⟨h1, h2⟩ k
    exact ⟨fun hk => h1 k hk, fun hk => h2 k hk⟩
  · intro h
    exact ⟨fun k hk => (h k).mp hk, fun k hk => (h k).mpr hk⟩

/-- Result of `rewrite_results`: `indexError` models `results[0]` on an
empty list, `badRecord` the `SystemExit` of lines 616-621 carrying the
offending address and the sorted extra and missing key lists of its
message. -/
inductive RwError where
  | indexError
  | badRecord (addr : String) (extra missing : List String)
deriving DecidableEq

/-- Python `sorted` on strings. -/
def sortStr (l : List String) : List String :=
  l.mergeSort (fun a b => decide (a ≤ b))

/-- The in-place `results.sort(key=lambda row: row["addr"])` of line 623. -/
def sortByAddr (l : List RwRecord) : List RwRecord :=
  l.mergeSort (fun a b => decide (a.addr ≤ b.addr))

/-- Embedding of `rewrite_results` (source lines 588-656).  The validation
loop (lines 611-621) aborts at the first record whose key set differs from
the first record's; only when every record passes are the rows sorted and
the column order computed (lines 623-648), and only then is the output
file written — so an error implies no output at all.  The returned value
is the written column order and row order. -/
def rewrite_results (results : List RwRecord) (ccs : List String) :
    Except RwError (List String × List RwRecord) :=
  match results with
  | [] => .error .indexError
  | r0 :: _ =>
    match results.find? (fun r => !(setEqB r.keys r0.keys)) with
    | some r =>
        .error (.badRecord r.addr
          (sortStr (r.keys.filter fun k => decide (k ∉ r0.keys)))
          (sortStr (r0.keys.filter fun k => decide (k ∉ r.keys))))
    | none =>
      let meta_columns := sortStr (r0.keys.filter fun k =>
        decide (k ∉ ["addr", "latitude", "longitude"]) && !(ccs.contains k))
      let dist_columns := sortStr (r0.keys.filter fun k =>
        decide (k ∉ ["addr", "latitude", "longitude"]) && ccs.contains k)
      let columns := "addr" :: meta_columns ++ ["longitude", "latitude"] ++ dist_columns
      .ok (columns, sortByAddr results)

lemma sortStr_perm (l : List String) : (sortStr l).Perm l :=
  List.mergeSort_perm l _

lemma sortStr_sorted (l : List String) : (sortStr l).Pairwise (· ≤ ·) := by
  have h := @List.sorted_mergeSort String (fun a b : String => decide (a ≤ b))
    (fun a b c h₁ h₂ => by simp at *; exact le_trans h₁ h₂)
    (fun a b => by simpa using le_total a b) l
  exact h.imp (fun hab => by simpa using hab)

lemma sortByAddr_perm (l : List RwRecord) : (sortByAddr l).Perm l :=
  List.mergeSort_perm l _

lemma sortByAddr_sorted (l : List RwRecord) :
    (sortByAddr l).Pairwise (fun a b => a.addr ≤ b.addr) := by
  have h := @List.sorted_mergeSort RwRecord (fun a b : RwRecord => decide (a.addr ≤ b.addr))
    (fun a b c h₁ h₂ => by simp at *; exact le_trans h₁ h₂)
    (fun a b => by simpa using le_total a.addr b.addr) l
  exact h.imp (fun hab => by simpa using hab)

/-- Claim C6: on a non-empty record list, the first record whose key set
differs from the first record's key set makes `rewrite_results` fail with
an error naming that record's address and carrying the sorted lists of its
extra keys and of its missing keys, and no output is produced. -/
theorem c6_schema_mismatch_fatal (results : List RwRecord) (ccs : List String)
    (r0 : RwRecord) (rest : List RwRecord) (r : RwRecord)
    (h : results = r0 :: rest)
    (hfind : results.find? (fun x => !(setEqB x.keys r0.keys)) = some r) :
    r ∈ results
    ∧ ¬(∀ k, k ∈ r.keys ↔ k ∈ r0.keys)
    ∧ rewrite_results results ccs
        = .error (.badRecord r.addr
            (sortStr (r.keys.filter fun k => decide (k ∉ r0.keys)))
            (sortStr (r0.keys.filter fun k => decide (k ∉ r.keys))))
    ∧ ∀ out, rewrite_results results ccs ≠ .ok out := by
  have hmem : r ∈ results := List.mem_of_find?_eq_some hfind
  have hprop0 := List.find?_some hfind
  have hprop : setEqB r.keys r0.keys = false := by simpa using hprop0
  have hne : ¬(∀ k, k ∈ r.keys ↔ k ∈ r0.keys) := by
    intro hall
    have ht := (setEqB_iff r.keys r0.keys).mpr hall
    rw [ht] at hprop
    simp at hprop
  subst h
  refine ⟨hmem, hne, ?_, ?_⟩
  · simp only [rewrite_results]
    rw [hfind]
  · intro out
    simp only [rewrite_results]
    rw [hfind]
    simp

/-- Closed witness for `c6_schema_mismatch_fatal`: two records disagreeing
in one country-code key. -/
theorem c6_schema_mismatch_fatal_witness :
    rewrite_results
        [⟨"1.1.1.1", ["addr", "longitude", "latitude", "USA"]⟩,
         ⟨"2.2.2.2", ["addr", "longitude", "latitude", "FRA"]⟩] ["USA", "FRA"]
      = .error (.badRecord "2.2.2.2"
          (sortStr (["addr", "longitude", "latitude", "FRA"].filter fun k =>
            decide (k ∉ ["addr", "longitude", "latitude", "USA"])))
          (sortStr (["addr", "longitude", "latitude", "USA"].filter fun k =>
            decide (k ∉ ["addr", "longitude", "latitude", "FRA"])))) :=
  (c6_schema_mismatch_fatal
    [⟨"1.1.1.1", ["addr", "longitude", "latitude", "USA"]⟩,
     ⟨"2.2.2.2", ["addr", "longitude", "latitude", "FRA"]⟩]
    ["USA", "FRA"]
    ⟨"1.1.1.1", ["addr", "longitude", "latitude", "USA"]⟩
    [⟨"2.2.2.2", ["addr", "longitude", "latitude", "FRA"]⟩]
    ⟨"2.2.2.2", ["addr", "longitude", "latitude", "FRA"]⟩
    rfl (by decide)).2.2.1

/-- Claim C7: for a schema-consistent record list, `rewrite_results`
succeeds, the emitted rows are a permutation of the input sorted by
address in ascending order, and the column order is exactly: `addr`, the
sorted metadata keys (those that are not `addr`, `latitude`, `longitude`
or a country code), `longitude`, `latitude`, the sorted country-code
keys.  The last conjunct states that `sortStr` indeed sorts ascending,
justifying reading the column groups as alphabetical. -/
theorem c7_sorted_and_column_order (results : List RwRecord) (ccs : List String)
    (r0 : RwRecord) (rest : List RwRecord)
    (h : results = r0 :: rest)
    (hgood : ∀ r ∈ results, ∀ k, k ∈ r.keys ↔ k ∈ r0.keys) :
    rewrite_results results ccs
      = .ok ("addr"
          :: sortStr (r0.keys.filter fun k =>
               decide (k ∉ ["addr", "latitude", "longitude"]) && !(ccs.contains k))
          ++ ["longitude", "latitude"]
          ++ sortStr (r0.keys.filter fun k =>
               decide (k ∉ ["addr", "latitude", "longitude"]) && ccs.contains k),
          sortByAddr results)
    ∧ (sortByAddr results).Perm results
    ∧ (sortByAddr results).Pairwise (fun a b => a.addr ≤ b.addr)
    ∧ (∀ l : List String, (sortStr l).Perm l ∧ (sortStr l).Pairwise (fun a b => a ≤ b)) := by
  have hnone : results.find? (fun x => !(setEqB x.keys r0.keys)) = none := by
    rw [List.find?_eq_none]
    intro x hx
    have hx2 := (setEqB_iff x.keys r0.keys).mpr (hgood x hx)
    simp [hx2]
  refine ⟨?_, sortByAddr_perm results, sortByAddr_sorted results,
    fun l => ⟨sortStr_perm l, sortStr_sorted l⟩⟩
  subst h
  simp only [rewrite_results]
  rw [hnone]

/-- Closed witness for `c7_sorted_and_column_order`: two consistent
records given in descending address order. -/
theorem c7_sorted_and_column_order_witness :
    rewrite_results
        [⟨"b", ["addr", "longitude", "latitude", "x_meta", "USA"]⟩,
         ⟨"a", ["addr", "longitude", "latitude", "x_meta", "USA"]⟩] ["USA", "FRA"]
      = .ok ("addr"
          :: sortStr (["addr", "longitude", "latitude", "x_meta", "USA"].filter fun k =>
               decide (k ∉ ["addr", "latitude", "longitude"]) && !(["USA", "FRA"].contains k))
          ++ ["longitude", "latitude"]
          ++ sortStr (["addr", "longitude", "latitude", "x_meta", "USA"].filter fun k =>
               decide (k ∉ ["addr", "latitude", "longitude"]) && ["USA", "FRA"].contains k),
          sortByAddr
            [⟨"b", ["addr", "longitude", "latitude", "x_meta", "USA"]⟩,
             ⟨"a", ["addr", "longitude", "latitude", "x_meta", "USA"]⟩]) :=
  (c7_sorted_and_column_order
    [⟨"b", ["addr", "longitude", "latitude", "x_meta", "USA"]⟩,
     ⟨"a", ["addr", "longitude", "latitude", "x_meta", "USA"]⟩]
    ["USA", "FRA"]
    ⟨"b", ["addr", "longitude", "latitude", "x_meta", "USA"]⟩
    [⟨"a", ["addr", "longitude", "latitude", "x_meta", "USA"]⟩]
    rfl
    (by
      intro r hr k
      simp only [List.mem_cons, List.not_mem_nil, or_false] at hr
      rcases hr with rfl | rfl <;> exact Iff.rfl)).1

/-- A file system state: file name to contents (`none` = absent). -/
def FileSys : Type := String → Option String

/-- The file-system operations `atomic_rewrite` performs, in the order the
source performs them. -/
inductive FsOp where
  | createTemp (tmp : String)
  | writeFile (f : String) (data : String)
  | fsyncFile (f : String)
  | linkFile (src dst : String)
  | replaceFile (src dst : String)
  | removeFile (f : String)

/-- Effect of one operation on the file system.  `linkFile` gives `dst`
the contents of `src` (a hard link is content-sharing; content equality is
all the claims observe); `replaceFile` is the atomic `os.replace`:
`dst` receives `src`'s contents and `src` disappears, in one step. -/
def applyOp (fs : FileSys) : FsOp → FileSys
  | .createTemp tmp => fun k => if k = tmp then some "" else fs k
  | .writeFile f data => fun k => if k = f then some data else fs k
  | .fsyncFile _ => fs
  | .linkFile src dst => fun k => if k = dst then fs src else fs k
  | .replaceFile src dst =>
      fun k => if k = dst then fs src else if k = src then none else fs k
  | .removeFile f => fun k => if k = f then none else fs k

def runOps (fs : FileSys) (ops : List FsOp) : FileSys :=
  ops.foldl applyOp fs

/-- Embedding of `atomic_rewrite` (source lines 158-217) as its operation
trace.  `tmp` is the fresh name `NamedTemporaryFile` generates in
`dirname(name)` (guaranteed distinct from every existing file, in
particular from `name`): create the temporary file; write the full
contents through the (possibly compressing) wrapper and flush it; fsync
the temporary file (lines 199-204); hard-link it to `xname = tfp.name + "."`
and atomically `os.replace` `xname` over `name` (lines 215-217); finally
`NamedTemporaryFile`'s context manager removes the temporary file.  The
destination `name` is touched by the `replaceFile` step only. -/
def atomic_rewrite (name tmp : String) (data : String) : List FsOp :=
  [.createTemp tmp,
   .writeFile tmp data,
   .fsyncFile tmp,
   .linkFile tmp (tmp ++ "."),
   .replaceFile (tmp ++ ".") name,
   .removeFile tmp]

/-- Claim C8: interrupting `atomic_rewrite` at any point before the final
atomic rename (any prefix of the trace stopping before `replaceFile`, the
operation at index 4) leaves the destination's contents byte-identical to
their prior state, and this also holds when the interruption additionally
runs the temporary file's cleanup (the I/O-error path, where
`NamedTemporaryFile` deletes the temporary on exception); the complete
trace installs exactly the written data at the destination, and the fsync
of the temporary precedes the rename in the trace. -/
theorem c8_atomic_rewrite (name tmp data : String) (fs : FileSys) (n : ℕ)
    (htmp : tmp ≠ name) (hx : tmp ++ "." ≠ name) (hn : n ≤ 4) :
    runOps fs ((atomic_rewrite name tmp data).take n) name = fs name
    ∧ runOps fs ((atomic_rewrite name tmp data).take n ++ [.removeFile tmp]) name
        = fs name
    ∧ runOps fs (atomic_rewrite name tmp data) name = some data
    ∧ (atomic_rewrite name tmp data).take 4
        = [.createTemp tmp, .writeFile tmp data, .fsyncFile tmp,
           .linkFile tmp (tmp ++ ".")] := by
  have hpre : ∀ m, m ≤ 4 →
      runOps fs ((atomic_rewrite name tmp data).take m) name = fs name := by
    intro m hm
    interval_cases m <;>
      simp [atomic_rewrite, runOps, applyOp, htmp, hx, Ne.symm htmp, Ne.symm hx]
  refine ⟨hpre n hn, ?_, ?_, by simp [atomic_rewrite]⟩
  · have h2 : runOps fs ((atomic_rewrite name tmp data).take n ++ [.removeFile tmp]) name
        = applyOp (runOps fs ((atomic_rewrite name tmp data).take n)) (.removeFile tmp) name := by
      simp [runOps, List.foldl_append]
    rw [h2]
    simp [applyOp, htmp, Ne.symm htmp, hpre n hn]
  · simp [atomic_rewrite, runOps, applyOp, htmp, hx, Ne.symm htmp, Ne.symm hx]

/-- Closed witness for `c8_atomic_rewrite`: a concrete destination with
prior contents, interrupted right after the fsync (three operations run). -/
theorem c8_atomic_rewrite_witness :
    runOps (fun k => if k = "results.csv" then some "old" else none)
        ((atomic_rewrite "results.csv" "results-h7k2.csv" "new").take 3) "results.csv"
      = some "old"
    ∧ runOps (fun k => if k = "results.csv" then some "old" else none)
        (atomic_rewrite "results.csv" "results-h7k2.csv" "new") "results.csv"
      = some "new" := by
  have h := c8_atomic_rewrite "results.csv" "results-h7k2.csv" "new"
    (fun k => if k = "results.csv" then some "old" else none) 3
    (by decide) (by decide) (by omega)
  refine ⟨?_, h.2.2.1⟩
  rw [h.1]
  simp

variable {γ : Type}

/-- Abstract interface to the geometry library (shapely): validity test,
zero-distance buffer, union of a list of shapes, and the GeoJSON-to-shape
conversion `asShape`.  Keeping it abstract lets theorems quantify over
library behaviour and counterexamples instantiate it concretely. -/
structure GeoLib (γ : Type) where
  is_valid : γ → Bool
  buffer0 : γ → γ
  unary_union : List γ → γ
  asShape : γ → γ

/-- A raw map feature: geographic-unit code, sovereign-owner code and its
geometry.  The source normalises both codes with `.strip().upper()` (lines
418-419); we model the inputs as already normalised — the normalisation is
a total per-string function and no claim depends on it. -/
structure Feature (γ : Type) where
  GU_A3 : String
  SOV_A3 : String
  geometry : γ
deriving DecidableEq

/-- The stderr diagnostics `load_maps` can emit (lines 403, 422, 446, 462,
470, 489), as structured messages. -/
inductive ErrMsg where
  | unknownISO (iso : String)
  | duplicateGU (gu : String)
  | noFeatures (iso name : String)
  | guNotFound (gu : String)
  | guInvalid (gu : String)
  | mergeInvalid (iso : String)
deriving DecidableEq

/-- How a `load_maps` run can end: a complete map, the aggregated
`SystemExit(1)` abort, or one of two uncaught Python exceptions the code
can raise: `NameError` (line 466 reads the loop-carried `geo` before any
`pop` succeeded) and `TypeError` (line 488 calls the bool property
`is_valid`). -/
inductive Outcome (γ : Type) where
  | ok (maps : List (String × γ))
  | systemExit
  | nameError
  | typeError
deriving DecidableEq

/-- Lines 401-406: every explicit rule's country code must be a known
ISO_A3 code; unknown ones are reported (and the run poisoned). -/
def checkRuleCodes (rules : List (String × List String))
    (ccs : List (String × String)) : List ErrMsg :=
  rules.filterMap fun r =>
    if (ccs.lookup r.1).isSome then none else some (.unknownISO r.1)

/-- `defaultdict(list)` append (line 434): extend the existing entry, else
create one at the end (first-touch insertion order). -/
def addRule (add_rules : List (String × List String)) (sov gu : String) :
    List (String × List String) :=
  match add_rules with
  | [] => [(sov, [gu])]
  | (k, gus) :: rest =>
    if k = sov then (k, gus ++ [gu]) :: rest
    else (k, gus) :: addRule rest sov gu

/-- Lines 415-434: index the features by GU_A3 (rejecting duplicates with
a diagnostic and skipping the rest of the iteration), and collect the
implicit rules: a feature whose sovereign is a known country with no
explicit rule is queued under that sovereign. -/
def scanFeaturesAux (rules : List (String × List String))
    (ccs : List (String × String)) :
    List (Feature γ) → List (String × γ) → List (String × List String) →
    List ErrMsg →
    List (String × γ) × List (String × List String) × List ErrMsg
  | [], all_gus, add_rules, errors => (all_gus, add_rules, errors)
  | f :: rest, all_gus, add_rules, errors =>
    if (all_gus.lookup f.GU_A3).isSome then
      scanFeaturesAux rules ccs rest all_gus add_rules
        (errors ++ [.duplicateGU f.GU_A3])
    else
      scanFeaturesAux rules ccs rest (all_gus ++ [(f.GU_A3, f.geometry)])
        (if (ccs.lookup f.SOV_A3).isSome && !((rules.lookup f.SOV_A3).isSome)
          then addRule add_rules f.SOV_A3 f.GU_A3
          else add_rules)
        errors

def scanFeatures (features : List (Feature γ))
    (rules : List (String × List String)) (ccs : List (String × String)) :
    List (String × γ) × List (String × List String) × List ErrMsg :=
  scanFeaturesAux rules ccs features [] [] []

/-- Lines 444-451: after merging the implicit rules, every required
country must have a rule. -/
def missingCoverage (rules : List (String × List String))
    (ccs : List (String × String)) : List ErrMsg :=
  ccs.filterMap fun c =>
    if (rules.lookup c.1).isSome then none else some (.noFeatures c.1 c.2)

/-- State of the checking loop of lines 455-477: the remaining unit index
(`all_gus`, from which units are `pop`ped), the function-scoped loop
variable `geo` (`none` = not yet bound), the accumulated stderr
diagnostics, and the per-country `groups` built so far. -/
structure CheckSt (γ : Type) where
  all_gus : List (String × γ)
  geo : Option γ
  errors : List ErrMsg
  groups : List (String × List γ)
deriving DecidableEq

/-- `dict.pop`: remove and return the entry for `k`, or fail. -/
def popAssoc (k : String) : List (String × γ) → Option (γ × List (String × γ))
  | [] => none
  | (k2, v) :: rest =>
    if k2 = k then some (v, rest)
    else (popAssoc k rest).map fun p => (p.1, (k2, v) :: p.2)

/-- Inner loop of lines 458-475 over one rule's unit list.  On a failed
`pop` the handler reports `GU not found in map` but — lacking a
`continue` — execution falls through to `sh = asShape(geo)` with `geo`
still holding the previously popped geometry (a stale reuse), or, if no
`pop` has succeeded yet in the whole checking phase, raises `NameError`
(modelled as the `.error` carrying the state at the crash). -/
def runGUs (L : GeoLib γ) :
    List String → CheckSt γ → List γ → Except (CheckSt γ) (CheckSt γ × List γ)
  | [], st, grp => .ok (st, grp)
  | gu :: rest, st, grp =>
    match popAssoc gu st.all_gus with
    | some (g, remaining) =>
      let st2 : CheckSt γ := { st with all_gus := remaining, geo := some g }
      let sh := L.asShape g
      if L.is_valid sh then runGUs L rest st2 (grp ++ [sh])
      else runGUs L rest { st2 with errors := st2.errors ++ [.guInvalid gu] } grp
    | none =>
      let st2 : CheckSt γ := { st with errors := st.errors ++ [.guNotFound gu] }
      match st2.geo with
      | none => .error st2
      | some g =>
        let sh := L.asShape g
        if L.is_valid sh then runGUs L rest st2 (grp ++ [sh])
        else runGUs L rest { st2 with errors := st2.errors ++ [.guInvalid gu] } grp

/-- Outer loop of lines 456-477: one group list per rule, in rule order
(rule keys are unique, so dict assignment is an ordered append). -/
def runRules (L : GeoLib γ) :
    List (String × List String) → CheckSt γ → Except (CheckSt γ) (CheckSt γ)
  | [], st => .ok st
  | (iso, gus) :: rest, st =>
    match runGUs L gus st [] with
    | .error st2 => .error st2
    | .ok (st2, grp) =>
      runRules L rest { st2 with groups := st2.groups ++ [(iso, grp)] }

/-- Python `sorted(groups.items())` (line 484): a stable ascending sort by
key (keys are unique here). -/
def sortGroups (groups : List (String × List γ)) : List (String × List γ) :=
  groups.insertionSort fun a b => a.1 ≤ b.1

/-- Merge loop of lines 484-496.  When the union is valid the merged
geometry is kept.  When it is not, the code runs `sh = sh.buffer(0)` and
then evaluates `sh.is_valid()` — but `is_valid` is a shapely *property*
whose value is a `bool`, so the call raises `TypeError: 'bool' object is
not callable` unconditionally, whatever the repaired geometry is; the
whole run dies on this uncaught exception (modelled as `.error ()`). -/
def mergeGroups (L : GeoLib γ) :
    List (String × List γ) → Except Unit (List (String × γ))
  | [] => .ok []
  | (iso, gus) :: rest =>
    let sh := L.unary_union gus
    if L.is_valid sh then (mergeGroups L rest).map fun ms => (iso, sh) :: ms
    else .error ()

/-- The rule table actually iterated by the checking loop: the explicit
rules with the implicit (sovereign-derived) rules appended (lines
440-442). -/
def load_maps_rules (features : List (Feature γ))
    (rules : List (String × List String)) (ccs : List (String × String)) :
    List (String × List String) :=
  rules ++ (scanFeatures features rules ccs).2.1

/-- Phases 1-5 of `load_maps` (everything before the `success` test of
line 479): validation diagnostics accumulated into the state, then the
checking loop. -/
def load_maps_check (L : GeoLib γ) (features : List (Feature γ))
    (rules : List (String × List String)) (ccs : List (String × String)) :
    Except (CheckSt γ) (CheckSt γ) :=
  runRules L (load_maps_rules features rules ccs)
    ⟨(scanFeatures features rules ccs).1, none,
     checkRuleCodes rules ccs
       ++ (scanFeatures features rules ccs).2.2
       ++ missingCoverage (load_maps_rules features rules ccs) ccs,
     []⟩

/-- Embedding of `load_maps` (source lines 366-501), returning the outcome
together with the full stderr diagnostic log.  Line 479 aborts with
`SystemExit(1)` when any diagnostic was emitted; only then does the merge
loop run.  (The second `success` test at line 498 is unreachable: the
merge loop's failure path dies in a `TypeError` first, hence has no
counterpart here.)  The `fiona.open` failure path (lines 436-438) is not
modelled: the feature list stands for a successfully opened map. -/
def load_maps (L : GeoLib γ) (features : List (Feature γ))
    (rules : List (String × List String)) (ccs : List (String × String)) :
    Outcome γ × List ErrMsg :=
  match load_maps_check L features rules ccs with
  | .error st => (.nameError, st.errors)
  | .ok st =>
    if st.errors.isEmpty then
      match mergeGroups L (sortGroups st.groups) with
      | .error _ => (.typeError, st.errors)
      | .ok maps => (.ok maps, st.errors)
    else (.systemExit, st.errors)

/-- The merge step as the documentation describes it (used as the
comparison point for the code's behaviour): union the group; if invalid,
attempt a single zero-distance-buffer repair; keep the repaired geometry
when it is now valid, otherwise record a fatal configuration error for
that country and carry on aggregating. -/
def spec_mergeGroups (L : GeoLib γ) :
    List (String × List γ) → List (String × γ) × List ErrMsg
  | [] => ([], [])
  | (iso, gus) :: rest =>
    let res := spec_mergeGroups L rest
    let sh := L.unary_union gus
    if L.is_valid sh then ((iso, sh) :: res.1, res.2)
    else
      let sh2 := L.buffer0 sh
      if L.is_valid sh2 then ((iso, sh2) :: res.1, res.2)
      else (res.1, .mergeInvalid iso :: res.2)

/-- Claim C2 (refuted by the code — the documented repair behaviour is the
intent, the code a slip): whenever a per-country union is topologically
invalid, line 488 evaluates `sh.is_valid()`, calling the bool property
`is_valid`, which raises `TypeError` unconditionally — so the run dies on
an uncaught exception instead of aggregating a fatal configuration error,
and it does so even when the zero-distance-buffer repair has produced a
valid geometry.  Geometry instance: validity is the shape itself
(`γ := Bool`), the union is always invalid, the buffer repair always
succeeds; one country, one valid unit, implicit rule via the sovereign.
The code crashes with `TypeError` (first conjunct) where the documented
behaviour keeps the repaired geometry and reports no error (second
conjunct). -/
theorem c2_merge_repair_crashes :
    load_maps (⟨id, fun _ => true, fun _ => false, id⟩ : GeoLib Bool)
        [⟨"GU1", "AAA", true⟩] [] [("AAA", "Country A")]
      = (Outcome.typeError, [])
    ∧ spec_mergeGroups (⟨id, fun _ => true, fun _ => false, id⟩ : GeoLib Bool)
        [("AAA", [true])]
      = ([("AAA", true)], []) := by
  constructor
  · rfl
  · rfl

/-- Claim C9's disjointness clause refuted: with two rules both referencing
unit `G1`, the second `pop` fails and is reported, but — the `except
KeyError` handler lacking a `continue` — the stale `geo` from the first
rule's pop is appended to the second country's group as well: the groups
of `AAA` and `BBB` both hold geometry `7`, so the per-country groups are
not pairwise disjoint and unit `G1`'s geometry is assigned to two
countries.  The run still fails (`SystemExit` after aggregation). -/
theorem c9_groups_not_disjoint :
    load_maps_check (⟨fun _ => true, id, fun _ => 0, id⟩ : GeoLib ℕ)
        [⟨"G1", "ZZZ", 7⟩] [("AAA", ["G1"]), ("BBB", ["G1"])]
        [("AAA", "Country A"), ("BBB", "Country B")]
      = .ok ⟨[], some 7, [ErrMsg.guNotFound "G1"], [("AAA", [7]), ("BBB", [7])]⟩
    ∧ ¬ (([7] : List ℕ).Disjoint [7])
    ∧ load_maps (⟨fun _ => true, id, fun _ => 0, id⟩ : GeoLib ℕ)
        [⟨"G1", "ZZZ", 7⟩] [("AAA", ["G1"]), ("BBB", ["G1"])]
        [("AAA", "Country A"), ("BBB", "Country B")]
      = (Outcome.systemExit, [ErrMsg.guNotFound "G1"]) := by
  refine ⟨rfl, ?_, rfl⟩
  intro h
  exact absurd (h (List.mem_singleton.mpr rfl)) (by simp)

lemma lookup_isSome_iff (k : String) :
    ∀ l : List (String × γ), (l.lookup k).isSome ↔ k ∈ l.map Prod.fst := by
  intro l
  induction l with
  | nil => simp
  | cons p rest ih =>
    obtain ⟨k2, v⟩ := p
    by_cases h : k = k2
    · simp [List.lookup, h]
    · simp [List.lookup, beq_false_of_ne h, ih, h]

lemma popAssoc_eq_none (k : String) :
    ∀ l : List (String × γ), popAssoc k l = none ↔ k ∉ l.map Prod.fst := by
  intro l
  induction l with
  | nil => simp [popAssoc]
  | cons p rest ih =>
    obtain ⟨k2, v⟩ := p
    by_cases h : k2 = k
    · simp [popAssoc, h]
    · simp [popAssoc, h, Option.map_eq_none', ih, Ne.symm h]

lemma popAssoc_some_split (k : String) :
    ∀ (l : List (String × γ)) (g : γ) (rest : List (String × γ)),
      popAssoc k l = some (g, rest) →
      ∃ l1 l2, l = l1 ++ (k, g) :: l2 ∧ rest = l1 ++ l2 ∧ k ∉ l1.map Prod.fst := by
  intro l
  induction l with
  | nil => intro g rest h; simp [popAssoc] at h
  | cons p tail ih =>
    obtain ⟨k2, v⟩ := p
    intro g rest h
    by_cases hk : k2 = k
    · subst hk
      simp [popAssoc] at h
      exact ⟨[], tail, by simp [h.1], by simp [h.2], by simp⟩
    · simp only [popAssoc, if_neg hk, Option.map_eq_some'] at h
      obtain ⟨⟨g2, rest2⟩, hpop, heq⟩ := h
      simp only [Prod.mk.injEq] at heq
      obtain ⟨hg, hr⟩ := heq
      subst hg
      obtain ⟨l1, l2, hl, hrest2, hn⟩ := ih g2 rest2 hpop
      refine ⟨(k2, v) :: l1, l2, by simp [hl], by simp [hrest2, ← hr], ?_⟩
      simp only [List.map_cons, List.mem_cons]
      rintro (h1 | h1)
      · exact hk h1.symm
      · exact hn h1

lemma popAssoc_some_subset (k : String) (l : List (String × γ)) (g : γ)
    (rest : List (String × γ)) (h : popAssoc k l = some (g, rest)) :
    ∀ k2, k2 ∈ rest.map Prod.fst → k2 ∈ l.map Prod.fst := by
  obtain ⟨l1, l2, rfl, rfl, _⟩ := popAssoc_some_split k l g rest h
  intro k2 hk2
  simp only [List.map_append, List.mem_append, List.map_cons, List.mem_cons] at hk2 ⊢
  tauto

lemma popAssoc_some_mem_ne (k : String) (l : List (String × γ)) (g : γ)
    (rest : List (String × γ)) (h : popAssoc k l = some (g, rest)) :
    ∀ k2, k2 ≠ k → (k2 ∈ rest.map Prod.fst ↔ k2 ∈ l.map Prod.fst) := by
  obtain ⟨l1, l2, rfl, rfl, _⟩ := popAssoc_some_split k l g rest h
  intro k2 hne
  simp only [List.map_append, List.mem_append, List.map_cons, List.mem_cons]
  constructor
  · tauto
  · rintro (h1 | h1 | h1)
    · exact Or.inl h1
    · exact absurd h1 hne
    · exact Or.inr h1

lemma popAssoc_some_nodup (k : String) (l : List (String × γ)) (g : γ)
    (rest : List (String × γ)) (h : popAssoc k l = some (g, rest))
    (hnd : (l.map Prod.fst).Nodup) :
    (rest.map Prod.fst).Nodup ∧ k ∉ rest.map Prod.fst := by
  obtain ⟨l1, l2, rfl, rfl, _⟩ := popAssoc_some_split k l g rest h
  rw [List.map_append] at hnd ⊢
  rw [List.map_cons] at hnd
  have hsub : List.Sublist (l1.map Prod.fst ++ l2.map Prod.fst)
      (l1.map Prod.fst ++ k :: l2.map Prod.fst) :=
    List.Sublist.append_left (List.sublist_cons_self k _) _
  have hsub2 : List.Sublist (k :: l2.map Prod.fst)
      (l1.map Prod.fst ++ k :: l2.map Prod.fst) :=
    List.sublist_append_right _ _
  have hdisj := List.disjoint_of_nodup_append hnd
  constructor
  · exact hnd.sublist hsub
  · intro hk
    rw [List.mem_append] at hk
    rcases hk with hk | hk
    · exact hdisj hk (List.mem_cons_self k _)
    · exact (List.nodup_cons.mp (hnd.sublist hsub2)).1 hk

lemma runGUs_ok_errors (L : GeoLib γ) :
    ∀ (gus : List String) (st : CheckSt γ) (grp : List γ)
      (st2 : CheckSt γ) (grp2 : List γ),
      runGUs L gus st grp = .ok (st2, grp2) →
      List.IsPrefix st.errors st2.errors := by
  intro gus
  induction gus with
  | nil =>
    intro st grp st2 grp2 hrun
    simp only [runGUs, Except.ok.injEq, Prod.mk.injEq] at hrun
    obtain ⟨rfl, rfl⟩ := hrun
    exact List.prefix_rfl
  | cons gu rest ih =>
    intro st grp st2 grp2 hrun
    obtain ⟨ags, geo, errs, grps⟩ := st
    simp only [runGUs] at hrun
    cases hpop : popAssoc gu ags with
    | some p =>
      obtain ⟨g, remaining⟩ := p
      rw [hpop] at hrun
      simp only at hrun
      by_cases hv : L.is_valid (L.asShape g) = true
      · rw [if_pos hv] at hrun
        exact ih ⟨remaining, some g, errs, grps⟩ _ _ _ hrun
      · rw [if_neg hv] at hrun
        exact List.IsPrefix.trans ⟨[.guInvalid gu], rfl⟩
          (ih ⟨remaining, some g, errs ++ [.guInvalid gu], grps⟩ _ _ _ hrun)
    | none =>
      rw [hpop] at hrun
      simp only at hrun
      cases geo with
      | none => simp at hrun
      | some g =>
        simp only at hrun
        by_cases hv : L.is_valid (L.asShape g) = true
        · rw [if_pos hv] at hrun
          exact List.IsPrefix.trans ⟨[.guNotFound gu], rfl⟩
            (ih ⟨ags, some g, errs ++ [.guNotFound gu], grps⟩ _ _ _ hrun)
        · rw [if_neg hv] at hrun
          refine List.IsPrefix.trans ⟨[.guNotFound gu, .guInvalid gu], ?_⟩
            (ih ⟨ags, some g, errs ++ [.guNotFound gu] ++ [.guInvalid gu], grps⟩ _ _ _ hrun)
          simp

lemma runGUs_keys_facts (L : GeoLib γ) :
    ∀ (gus : List String) (st : CheckSt γ) (grp : List γ)
      (st2 : CheckSt γ) (grp2 : List γ),
      runGUs L gus st grp = .ok (st2, grp2) →
      (∀ k, k ∈ st2.all_gus.map Prod.fst → k ∈ st.all_gus.map Prod.fst)
      ∧ (∀ k, k ∉ gus →
          (k ∈ st2.all_gus.map Prod.fst ↔ k ∈ st.all_gus.map Prod.fst))
      ∧ ((st.all_gus.map Prod.fst).Nodup → (st2.all_gus.map Prod.fst).Nodup) := by
  intro gus
  induction gus with
  | nil =>
    intro st grp st2 grp2 hrun
    simp only [runGUs, Except.ok.injEq, Prod.mk.injEq] at hrun
    obtain ⟨rfl, rfl⟩ := hrun
    exact ⟨fun k h => h, fun k _ => Iff.rfl, fun h => h⟩
  | cons gu rest ih =>
    intro st grp st2 grp2 hrun
    obtain ⟨ags, geo, errs, grps⟩ := st
    simp only [runGUs] at hrun
    cases hpop : popAssoc gu ags with
    | some p =>
      obtain ⟨g, remaining⟩ := p
      rw [hpop] at hrun
      simp only at hrun
      have hstep_sub := popAssoc_some_subset gu ags g remaining hpop
      have hstep_ne := popAssoc_some_mem_ne gu ags g remaining hpop
      have hstep_nd := popAssoc_some_nodup gu ags g remaining hpop
      have htail :
          runGUs L rest ⟨remaining, some g, errs, grps⟩ (grp ++ [L.asShape g]) = .ok (st2, grp2)
          ∨ runGUs L rest ⟨remaining, some g, errs ++ [.guInvalid gu], grps⟩ grp
            = .ok (st2, grp2) := by
        by_cases hv : L.is_valid (L.asShape g) = true
        · rw [if_pos hv] at hrun; exact Or.inl hrun
        · rw [if_neg hv] at hrun; exact Or.inr hrun
      have hih :
          (∀ k, k ∈ st2.all_gus.map Prod.fst → k ∈ remaining.map Prod.fst)
          ∧ (∀ k, k ∉ rest →
              (k ∈ st2.all_gus.map Prod.fst ↔ k ∈ remaining.map Prod.fst))
          ∧ ((remaining.map Prod.fst).Nodup → (st2.all_gus.map Prod.fst).Nodup) := by
        rcases htail with h | h
        · exact ih _ _ _ _ h
        · exact ih _ _ _ _ h
      refine ⟨fun k hk => hstep_sub k (hih.1 k hk), ?_, ?_⟩
      · intro k hk
        have hk1 : k ∉ rest := fun h => hk (List.mem_cons_of_mem _ h)
        have hk2 : k ≠ gu := fun h => hk (h ▸ List.mem_cons_self _ _)
        exact (hih.2.1 k hk1).trans (hstep_ne k hk2)
      · intro hnd
        exact hih.2.2 (hstep_nd hnd).1
    | none =>
      rw [hpop] at hrun
      simp only at hrun
      cases geo with
      | none => simp at hrun
      | some g =>
        simp only at hrun
        have htail :
            runGUs L rest ⟨ags, some g, errs ++ [.guNotFound gu], grps⟩
              (grp ++ [L.asShape g]) = .ok (st2, grp2)
            ∨ runGUs L rest
                ⟨ags, some g, errs ++ [.guNotFound gu] ++ [.guInvalid gu], grps⟩ grp
              = .ok (st2, grp2) := by
          by_cases hv : L.is_valid (L.asShape g) = true
          · rw [if_pos hv] at hrun; exact Or.inl hrun
          · rw [if_neg hv] at hrun; exact Or.inr hrun
        have hih :
            (∀ k, k ∈ st2.all_gus.map Prod.fst → k ∈ ags.map Prod.fst)
            ∧ (∀ k, k ∉ rest →
                (k ∈ st2.all_gus.map Prod.fst ↔ k ∈ ags.map Prod.fst))
            ∧ ((ags.map Prod.fst).Nodup → (st2.all_gus.map Prod.fst).Nodup) := by
          rcases htail with h | h
          · exact ih _ _ _ _ h
          · exact ih _ _ _ _ h
        exact ⟨hih.1, fun k hk => hih.2.1 k (fun h => hk (List.mem_cons_of_mem _ h)),
          hih.2.2⟩

lemma runGUs_popped (L : GeoLib γ) (k : String) :
    ∀ (gus : List String) (st : CheckSt γ) (grp : List γ)
      (st2 : CheckSt γ) (grp2 : List γ),
      runGUs L gus st grp = .ok (st2, grp2) →
      (st.all_gus.map Prod.fst).Nodup → k ∈ gus →
      k ∉ st2.all_gus.map Prod.fst := by
  intro gus
  induction gus with
  | nil => intro st grp st2 grp2 hrun hnd hk; simp at hk
  | cons gu rest ih =>
    intro st grp st2 grp2 hrun hnd hk
    obtain ⟨ags, geo, errs, grps⟩ := st
    simp only [runGUs] at hrun
    cases hpop : popAssoc gu ags with
    | some p =>
      obtain ⟨g, remaining⟩ := p
      rw [hpop] at hrun
      simp only at hrun
      have hnd2 := popAssoc_some_nodup gu ags g remaining hpop hnd
      have htail :
          runGUs L rest ⟨remaining, some g, errs, grps⟩ (grp ++ [L.asShape g])
            = .ok (st2, grp2)
          ∨ runGUs L rest ⟨remaining, some g, errs ++ [.guInvalid gu], grps⟩ grp
            = .ok (st2, grp2) := by
        by_cases hv : L.is_valid (L.asShape g) = true
        · rw [if_pos hv] at hrun; exact Or.inl hrun
        · rw [if_neg hv] at hrun; exact Or.inr hrun
      by_cases hkgu : k = gu
      · subst hkgu
        intro hk2
        have hsub : k ∈ remaining.map Prod.fst := by
          rcases htail with h | h
          · exact (runGUs_keys_facts L rest _ _ _ _ h).1 k hk2
          · exact (runGUs_keys_facts L rest _ _ _ _ h).1 k hk2
        exact hnd2.2 hsub
      · have hkrest : k ∈ rest := by
          rcases List.mem_cons.mp hk with h | h
          · exact absurd h hkgu
          · exact h
        rcases htail with h | h
        · exact ih _ _ _ _ h hnd2.1 hkrest
        · exact ih _ _ _ _ h hnd2.1 hkrest
    | none =>
      rw [hpop] at hrun
      simp only at hrun
      have habs : gu ∉ ags.map Prod.fst := (popAssoc_eq_none gu ags).mp hpop
      cases geo with
      | none => simp at hrun
      | some g =>
        simp only at hrun
        have htail :
            runGUs L rest ⟨ags, some g, errs ++ [.guNotFound gu], grps⟩
              (grp ++ [L.asShape g]) = .ok (st2, grp2)
            ∨ runGUs L rest
                ⟨ags, some g, errs ++ [.guNotFound gu] ++ [.guInvalid gu], grps⟩ grp
              = .ok (st2, grp2) := by
          by_cases hv : L.is_valid (L.asShape g) = true
          · rw [if_pos hv] at hrun; exact Or.inl hrun
          · rw [if_neg hv] at hrun; exact Or.inr hrun
        by_cases hkgu : k = gu
        · subst hkgu
          intro hk2
          have hsub : k ∈ ags.map Prod.fst := by
            rcases htail with h | h
            · exact (runGUs_keys_facts L rest _ _ _ _ h).1 k hk2
            · exact (runGUs_keys_facts L rest _ _ _ _ h).1 k hk2
          exact habs hsub
        · have hkrest : k ∈ rest := by
            rcases List.mem_cons.mp hk with h | h
            · exact absurd h hkgu
            · exact h
          rcases htail with h | h
          · exact ih _ _ _ _ h hnd hkrest
          · exact ih _ _ _ _ h hnd hkrest

lemma runGUs_missing_reported (L : GeoLib γ) (k : String) :
    ∀ (gus : List String) (st : CheckSt γ) (grp : List γ)
      (st2 : CheckSt γ) (grp2 : List γ),
      runGUs L gus st grp = .ok (st2, grp2) →
      k ∈ gus → k ∉ st.all_gus.map Prod.fst →
      ErrMsg.guNotFound k ∈ st2.errors := by
  intro gus
  induction gus with
  | nil => intro st grp st2 grp2 hrun hk habs; simp at hk
  | cons gu rest ih =>
    intro st grp st2 grp2 hrun hk habs
    obtain ⟨ags, geo, errs, grps⟩ := st
    simp only [runGUs] at hrun
    by_cases hkgu : k = gu
    · subst hkgu
      have hpop : popAssoc k ags = none := (popAssoc_eq_none k ags).mpr habs
      rw [hpop] at hrun
      simp only at hrun
      cases geo with
      | none => simp at hrun
      | some g =>
        simp only at hrun
        by_cases hv : L.is_valid (L.asShape g) = true
        · rw [if_pos hv] at hrun
          exact (runGUs_ok_errors L rest
            ⟨ags, some g, errs ++ [.guNotFound k], grps⟩ _ _ _ hrun).subset (by simp)
        · rw [if_neg hv] at hrun
          exact (runGUs_ok_errors L rest
            ⟨ags, some g, errs ++ [.guNotFound k] ++ [.guInvalid k], grps⟩ _ _ _
            hrun).subset (by simp)
    · have hkrest : k ∈ rest := by
        rcases List.mem_cons.mp hk with h | h
        · exact absurd h hkgu
        · exact h
      cases hpop : popAssoc gu ags with
      | some p =>
        obtain ⟨g, remaining⟩ := p
        rw [hpop] at hrun
        simp only at hrun
        have habs2 : k ∉ remaining.map Prod.fst := fun h =>
          habs ((popAssoc_some_mem_ne gu ags g remaining hpop k hkgu).mp h)
        by_cases hv : L.is_valid (L.asShape g) = true
        · rw [if_pos hv] at hrun
          exact ih _ _ _ _ hrun hkrest habs2
        · rw [if_neg hv] at hrun
          exact ih _ _ _ _ hrun hkrest habs2
      | none =>
        rw [hpop] at hrun
        simp only at hrun
        cases geo with
        | none => simp at hrun
        | some g =>
          simp only at hrun
          by_cases hv : L.is_valid (L.asShape g) = true
          · rw [if_pos hv] at hrun
            exact ih _ _ _ _ hrun hkrest habs
          · rw [if_neg hv] at hrun
            exact ih _ _ _ _ hrun hkrest habs

lemma runGUs_append (L : GeoLib γ) :
    ∀ (a b : List String) (st : CheckSt γ) (grp : List γ),
      runGUs L (a ++ b) st grp
        = match runGUs L a st grp with
          | .error st2 => .error st2
          | .ok (st2, grp2) => runGUs L b st2 grp2 := by
  intro a
  induction a with
  | nil => intro b st grp; simp [runGUs]
  | cons gu rest ih =>
    intro b st grp
    obtain ⟨ags, geo, errs, grps⟩ := st
    simp only [List.cons_append, runGUs]
    cases hpop : popAssoc gu ags with
    | some p =>
      obtain ⟨g, remaining⟩ := p
      simp only
      by_cases hv : L.is_valid (L.asShape g) = true
      · simp only [if_pos hv]
        exact ih b _ _
      · simp only [if_neg hv]
        exact ih b _ _
    | none =>
      simp only
      cases geo with
      | none => rfl
      | some g =>
        simp only
        by_cases hv : L.is_valid (L.asShape g) = true
        · simp only [if_pos hv]
          exact ih b _ _
        · simp only [if_neg hv]
          exact ih b _ _

lemma runGUs_dup_reported (L : GeoLib γ) (k : String)
    (gus : List String) (st : CheckSt γ) (grp : List γ)
    (st2 : CheckSt γ) (grp2 : List γ)
    (hrun : runGUs L gus st grp = .ok (st2, grp2))
    (hnd : (st.all_gus.map Prod.fst).Nodup)
    (hcase : (k ∈ st.all_gus.map Prod.fst ∧ 2 ≤ gus.count k)
      ∨ (k ∉ st.all_gus.map Prod.fst ∧ 1 ≤ gus.count k)) :
    ErrMsg.guNotFound k ∈ st2.errors := by
  rcases hcase with ⟨hmem, hcnt⟩ | ⟨habs, hcnt⟩
  · have hk : k ∈ gus := List.count_pos_iff.mp (by omega)
    obtain ⟨pre, post, rfl⟩ := List.append_of_mem hk
    have hcnt2 : 1 ≤ pre.count k + post.count k := by
      rw [List.count_append, List.count_cons] at hcnt
      simp at hcnt
      omega
    by_cases hpost : k ∈ post
    · have hsplit : pre ++ k :: post = (pre ++ [k]) ++ post := by simp
      rw [hsplit, runGUs_append] at hrun
      cases hfst : runGUs L (pre ++ [k]) st grp with
      | error st3 => rw [hfst] at hrun; simp at hrun
      | ok p =>
        obtain ⟨st3, grp3⟩ := p
        rw [hfst] at hrun
        simp only at hrun
        have hpopk := runGUs_popped L k (pre ++ [k]) st grp st3 grp3 hfst hnd (by simp)
        exact runGUs_missing_reported L k post st3 grp3 st2 grp2 hrun hpost hpopk
    · have hpre : k ∈ pre := by
        have h0 : post.count k = 0 := List.count_eq_zero.mpr hpost
        exact List.count_pos_iff.mp (by omega)
      rw [runGUs_append] at hrun
      cases hfst : runGUs L pre st grp with
      | error st3 => rw [hfst] at hrun; simp at hrun
      | ok p =>
        obtain ⟨st3, grp3⟩ := p
        rw [hfst] at hrun
        simp only at hrun
        have hpopk := runGUs_popped L k pre st grp st3 grp3 hfst hnd hpre
        exact runGUs_missing_reported L k (k :: post) st3 grp3 st2 grp2 hrun
          (List.mem_cons_self _ _) hpopk
  · exact runGUs_missing_reported L k gus st grp st2 grp2 hrun
      (List.count_pos_iff.mp (by omega)) habs

/-- All geographic-unit references of a rule table, flattened in
processing order. -/
def flatRefs : List (String × List String) → List String
  | [] => []
  | (_, gus) :: rest => gus ++ flatRefs rest

lemma runRules_ok_errors (L : GeoLib γ) :
    ∀ (rs : List (String × List String)) (st st2 : CheckSt γ),
      runRules L rs st = .ok st2 → List.IsPrefix st.errors st2.errors := by
  intro rs
  induction rs with
  | nil =>
    intro st st2 hrun
    simp only [runRules, Except.ok.injEq] at hrun
    subst hrun
    exact List.prefix_rfl
  | cons hd rest ih =>
    obtain ⟨iso, gus⟩ := hd
    intro st st2 hrun
    simp only [runRules] at hrun
    cases hg : runGUs L gus st [] with
    | error st3 => rw [hg] at hrun; simp at hrun
    | ok p =>
      obtain ⟨stm, grp⟩ := p
      rw [hg] at hrun
      simp only at hrun
      obtain ⟨a2, geo2, e2, gr2⟩ := stm
      have h1 := runGUs_ok_errors L gus st [] ⟨a2, geo2, e2, gr2⟩ grp hg
      have h2 := ih ⟨a2, geo2, e2, gr2 ++ [(iso, grp)]⟩ st2 hrun
      exact h1.trans h2

lemma runRules_dup_reported (L : GeoLib γ) (k : String) :
    ∀ (rs : List (String × List String)) (st st2 : CheckSt γ),
      runRules L rs st = .ok st2 →
      (st.all_gus.map Prod.fst).Nodup →
      ((k ∈ st.all_gus.map Prod.fst ∧ 2 ≤ (flatRefs rs).count k)
        ∨ (k ∉ st.all_gus.map Prod.fst ∧ 1 ≤ (flatRefs rs).count k)) →
      ErrMsg.guNotFound k ∈ st2.errors := by
  intro rs
  induction rs with
  | nil =>
    intro st st2 hrun hnd hcase
    rcases hcase with ⟨_, hc⟩ | ⟨_, hc⟩ <;> simp [flatRefs] at hc
  | cons hd rest ih =>
    obtain ⟨iso, gus⟩ := hd
    intro st st2 hrun hnd hcase
    simp only [runRules] at hrun
    cases hg : runGUs L gus st [] with
    | error st3 => rw [hg] at hrun; simp at hrun
    | ok p =>
      obtain ⟨stm, grp⟩ := p
      rw [hg] at hrun
      simp only at hrun
      obtain ⟨a2, geo2, e2, gr2⟩ := stm
      have hkf := runGUs_keys_facts L gus st [] ⟨a2, geo2, e2, gr2⟩ grp hg
      have hnd2 : (a2.map Prod.fst).Nodup := hkf.2.2 hnd
      have hcnt : (flatRefs ((iso, gus) :: rest)).count k
          = gus.count k + (flatRefs rest).count k := by
        simp [flatRefs, List.count_append]
      have hmono := runRules_ok_errors L rest ⟨a2, geo2, e2, gr2 ++ [(iso, grp)]⟩ st2 hrun
      rcases hcase with ⟨hmem, hc⟩ | ⟨habs, hc⟩
      · rw [hcnt] at hc
        by_cases h2 : 2 ≤ gus.count k
        · have hin := runGUs_dup_reported L k gus st [] ⟨a2, geo2, e2, gr2⟩ grp hg hnd
            (Or.inl ⟨hmem, h2⟩)
          exact hmono.subset hin
        · by_cases h1 : 1 ≤ gus.count k
          · have hkgus : k ∈ gus := List.count_pos_iff.mp (by omega)
            have hpop := runGUs_popped L k gus st [] ⟨a2, geo2, e2, gr2⟩ grp hg hnd hkgus
            exact ih ⟨a2, geo2, e2, gr2 ++ [(iso, grp)]⟩ st2 hrun hnd2
              (Or.inr ⟨hpop, by omega⟩)
          · have hkgus : k ∉ gus := fun h =>
              h1 (List.count_pos_iff.mpr h)
            have hmem2 : k ∈ a2.map Prod.fst := (hkf.2.1 k hkgus).mpr hmem
            exact ih ⟨a2, geo2, e2, gr2 ++ [(iso, grp)]⟩ st2 hrun hnd2
              (Or.inl ⟨hmem2, by omega⟩)
      · rw [hcnt] at hc
        by_cases h1 : 1 ≤ gus.count k
        · have hkgus : k ∈ gus := List.count_pos_iff.mp (by omega)
          have hin := runGUs_missing_reported L k gus st [] ⟨a2, geo2, e2, gr2⟩ grp hg
            hkgus habs
          exact hmono.subset hin
        · have hkgus : k ∉ gus := fun h => h1 (List.count_pos_iff.mpr h)
          have habs2 : k ∉ a2.map Prod.fst := fun h => habs ((hkf.2.1 k hkgus).mp h)
          exact ih ⟨a2, geo2, e2, gr2 ++ [(iso, grp)]⟩ st2 hrun hnd2
            (Or.inr ⟨habs2, by omega⟩)

lemma scanFeaturesAux_nodup (rules : List (String × List String))
    (ccs : List (String × String)) :
    ∀ (features : List (Feature γ)) (all_gus : List (String × γ))
      (add_rules : List (String × List String)) (errors : List ErrMsg),
      (all_gus.map Prod.fst).Nodup →
      (((scanFeaturesAux rules ccs features all_gus add_rules errors).1).map Prod.fst).Nodup := by
  intro features
  induction features with
  | nil => intro all_gus add_rules errors hnd; simpa [scanFeaturesAux] using hnd
  | cons f rest ih =>
    intro all_gus add_rules errors hnd
    simp only [scanFeaturesAux]
    by_cases h : (all_gus.lookup f.GU_A3).isSome
    · rw [if_pos h]
      exact ih _ _ _ hnd
    · rw [if_neg h]
      apply ih
      have hni : f.GU_A3 ∉ all_gus.map Prod.fst := fun hm =>
        h ((lookup_isSome_iff _ _).mpr hm)
      rw [List.map_append]
      rw [List.nodup_append]
      refine ⟨hnd, by simp, ?_⟩
      intro x hx
      simp only [List.map_cons, List.map_nil, List.mem_singleton]
      intro hxe
      subst hxe
      exact hni hx

lemma scanFeatures_nodup (features : List (Feature γ))
    (rules : List (String × List String)) (ccs : List (String × String)) :
    (((scanFeatures features rules ccs).1).map Prod.fst).Nodup :=
  scanFeaturesAux_nodup rules ccs features [] [] [] (by simp)

/-- Claim C9, amended: a unit index entry is indeed `pop`ped on first
consumption, so a rule table whose flattened references name a
map-present geographic unit twice makes the second reference fail with a
`GU not found in map` diagnostic, and the run never returns a map: it
aborts via the aggregated `SystemExit` carrying that diagnostic — unless
the checking loop has already died in the `NameError` of a failed first
`pop` (also a failed run).  However (the part of the original claim that
is false, witnessed by `c9_groups_not_disjoint`): because the `KeyError`
handler does not `continue`, the stale previously-popped geometry is
appended in place of the missing one, so the per-country groups need not
be pairwise disjoint and a unit's geometry can be assigned to two
countries; the run still never uses those groups because it aborts. -/
theorem c9_duplicate_reference_fails (L : GeoLib γ) (features : List (Feature γ))
    (rules : List (String × List String)) (ccs : List (String × String))
    (gu : String)
    (hdup : 2 ≤ (flatRefs (load_maps_rules features rules ccs)).count gu)
    (hmem : gu ∈ (scanFeatures features rules ccs).1.map Prod.fst) :
    ((load_maps L features rules ccs).1 = Outcome.systemExit
      ∧ ErrMsg.guNotFound gu ∈ (load_maps L features rules ccs).2)
    ∨ (load_maps L features rules ccs).1 = Outcome.nameError := by
  unfold load_maps
  cases hchk : load_maps_check L features rules ccs with
  | error st => right; rfl
  | ok st =>
    left
    have hin : ErrMsg.guNotFound gu ∈ st.errors := by
      unfold load_maps_check at hchk
      exact runRules_dup_reported L gu (load_maps_rules features rules ccs) _ st hchk
        (scanFeatures_nodup features rules ccs) (Or.inl ⟨hmem, hdup⟩)
    have hne : ¬(st.errors.isEmpty = true) := by
      intro h
      rw [List.isEmpty_iff] at h
      rw [h] at hin
      simp at hin
    simp only
    rw [if_neg hne]
    exact ⟨rfl, hin⟩

/-- Closed witness for `c9_duplicate_reference_fails` at the
two-rules-one-unit instance. -/
theorem c9_duplicate_reference_fails_witness :
    ((load_maps (⟨fun _ => true, id, fun _ => 0, id⟩ : GeoLib ℕ)
        [⟨"G1", "ZZZ", 7⟩] [("AAA", ["G1"]), ("BBB", ["G1"])]
        [("AAA", "Country A"), ("BBB", "Country B")]).1 = Outcome.systemExit
      ∧ ErrMsg.guNotFound "G1"
          ∈ (load_maps (⟨fun _ => true, id, fun _ => 0, id⟩ : GeoLib ℕ)
              [⟨"G1", "ZZZ", 7⟩] [("AAA", ["G1"]), ("BBB", ["G1"])]
              [("AAA", "Country A"), ("BBB", "Country B")]).2)
    ∨ (load_maps (⟨fun _ => true, id, fun _ => 0, id⟩ : GeoLib ℕ)
        [⟨"G1", "ZZZ", 7⟩] [("AAA", ["G1"]), ("BBB", ["G1"])]
        [("AAA", "Country A"), ("BBB", "Country B")]).1 = Outcome.nameError :=
  c9_duplicate_reference_fails (⟨fun _ => true, id, fun _ => 0, id⟩ : GeoLib ℕ)
    [⟨"G1", "ZZZ", 7⟩] [("AAA", ["G1"]), ("BBB", ["G1"])]
    [("AAA", "Country A"), ("BBB", "Country B")] "G1" (by decide) (by decide)

end AnalyzeLandmarks
